import Mathlib

/-!
Verification of the MCP (Model Context Protocol) server layer of the
deco-cx/mcp repository: a shallow embedding, in Lean 4, of the tool-registry
naming logic (`slugify`, the collision loop of `getTools`), the JSON-Schema
dereferencer (`dereferenceSchema`), the include/exclude tool filters
(`matchesPattern`, `mcpServerTools`), the middleware composition (`compose`),
the stateless HTTP transport send/close state machine, and the WebSocket
transport close, together with theorems settling the specification claims
about those components.

JavaScript values are modelled as follows: object fields that may be absent
are `Option`s (a JS key that is present but `undefined` behaves, for every
operation the embedded code performs, like an absent key); JS `Map`s and
plain objects used as dictionaries are insertion-ordered association lists;
a thrown exception is the `none` of an `Option`-valued result or the
`Except.error` of an `Except`-valued one.
-/

namespace DecoMcp

/-! ## Slugification (src/mcp/server.ts, `slugify`)

The source is
`name.replace(/[./]/g, "-").replace(/[^a-zA-Z0-9_-]/g, "")`:
first every `.` and `/` becomes `-`, then every character outside
`[a-zA-Z0-9_-]` is removed.  Note that the source never lowercases. -/

/-- The character class `[a-zA-Z0-9_-]` of the second regex in `slugify`. -/
def slugKeep (c : Char) : Bool :=
  ('a' ≤ c && c ≤ 'z') || ('A' ≤ c && c ≤ 'Z') || ('0' ≤ c && c ≤ '9') ||
    c == '_' || c == '-'

/-- `slugify` on the character list: the first regex replaces `.` and `/`
by `-`, the second strips everything outside `[a-zA-Z0-9_-]`. -/
def slugifyChars (l : List Char) : List Char :=
  (l.map (fun c => if c == '.' || c == '/' then '-' else c)).filter slugKeep

/-- Embedding of `slugify` from src/mcp/server.ts lines 66-68. -/
def slugify (name : String) : String :=
  ⟨slugifyChars name.data⟩

/-- The slugification the spec describes: it additionally *lowercases* the
string first ("lower the string, replace `.` and `/` with `-`, strip any
character outside `[A-Za-z0-9_-]`").  Used only to compare the spec's words
with the source. -/
def slugifySpecClaimed (name : String) : String :=
  ⟨slugifyChars (name.data.map Char.toLower)⟩

/-- A single-pass recursion implementing the amended description of
`slugify` (replace `.` and `/` by `-`, drop characters outside
`[a-zA-Z0-9_-]`, no lowercasing), used as an independent specification to
compare against the two-regex implementation. -/
def slugAmendedSpec : List Char → List Char
  | [] => []
  | c :: cs =>
    if c == '.' || c == '/' then '-' :: slugAmendedSpec cs
    else if slugKeep c then c :: slugAmendedSpec cs
    else slugAmendedSpec cs

theorem slugifyChars_eq_spec (l : List Char) : slugifyChars l = slugAmendedSpec l := by
  induction l with
  | nil => rfl
  | cons c cs ih =>
    simp only [slugifyChars, List.map_cons, List.filter] at *
    by_cases h : (c == '.' || c == '/') = true
    · have hkeep : slugKeep '-' = true := by decide
      simp [slugAmendedSpec, h, hkeep]
      simpa using ih
    · by_cases hk : slugKeep c = true
      · simp [slugAmendedSpec, h, hk]
        simpa using ih
      · simp [slugAmendedSpec, h, hk]
        simpa using ih

/-! ## Tool-name registry (src/mcp/server.ts, `getTools` lines 156-167)

The `toolNames` JS `Map<string, string>` (slugified name -> resolveType) is
modelled as an insertion-ordered association list.  `Map.set` overwrites in
place when the key exists and appends otherwise. -/

/-- The `toolNames` map: slugified tool name -> resolveType (internal id). -/
abbrev NameMap := List (String × String)

namespace NameMap

/-- `Map.get`: first binding of the key, if any. -/
def get? (m : NameMap) (k : String) : Option String :=
  match m with
  | [] => none
  | (k', v) :: rest => if k' == k then some v else get? rest k

/-- `Map.has`. -/
def hasKey (m : NameMap) (k : String) : Bool :=
  (get? m k).isSome

/-- `Map.set`: overwrite in place if the key exists, append otherwise. -/
def set (m : NameMap) (k v : String) : NameMap :=
  match m with
  | [] => [(k, v)]
  | (k', v') :: rest => if k' == k then (k', v) :: rest else (k', v') :: set rest k v

/-- Upper bound on the length of the keys of a map; used only for the
termination measure of the collision loop. -/
def maxKeyLen (m : NameMap) : Nat :=
  match m with
  | [] => 0
  | (k, _) :: rest => max k.length (maxKeyLen rest)

theorem length_le_maxKeyLen {m : NameMap} {k : String} {v : String}
    (h : get? m k = some v) : k.length ≤ maxKeyLen m := by
  induction m with
  | nil => simp [get?] at h
  | cons kv rest ih =>
    obtain ⟨k', v'⟩ := kv
    simp only [get?] at h
    by_cases hk : (k' == k) = true
    · have : k' = k := by simpa using hk
      subst this
      simp [maxKeyLen]
    · simp only [hk, if_neg, Bool.false_eq_true, if_false] at h
      have := ih h
      simp only [maxKeyLen]
      exact le_max_of_le_right this

end NameMap

/-- Embedding of the collision loop of `getTools` (src/mcp/server.ts lines
159-166):

```
let idx = 1;
while (toolNames.has(toolName) && toolNames.get(toolName) !== resolveType) {
  toolName = `${toolName}-${idx}`;
  idx++;
}
```

Each iteration appends `-idx` to the *current* candidate, so a third
collider walks `base`, `base-1`, `base-1-2`, ... -/
def clashLoop (m : NameMap) (resolveType : String) (toolName : String) (idx : Nat) :
    String :=
  if h : NameMap.hasKey m toolName = true ∧ NameMap.get? m toolName ≠ some resolveType then
    clashLoop m resolveType (toolName ++ "-" ++ toString idx) (idx + 1)
  else toolName
termination_by NameMap.maxKeyLen m + 1 - toolName.length
decreasing_by
  obtain ⟨hhas, _⟩ := h
  obtain ⟨v, hv⟩ := Option.isSome_iff_exists.mp hhas
  have hle : toolName.length ≤ NameMap.maxKeyLen m := NameMap.length_le_maxKeyLen hv
  have hgrow : toolName.length < (toolName ++ "-" ++ toString idx).length := by
    have hdash : ("-" : String).length = 1 := rfl
    simp only [String.length_append]
    omega
  exact Nat.sub_lt_sub_left (Nat.lt_succ_of_le hle) hgrow

/-- One candidate operation definition, reduced to the data the naming logic
reads: its `__resolveType` (the internal id) and the optional explicit name
(`funcDefinition.name ?? inputSchema.name`). -/
structure ToolEntry where
  resolveType : String
  explicitName : Option String
deriving DecidableEq

/-- The candidate tool name of an entry (src/mcp/server.ts lines 157-158):
the explicit name when present, else the slugified resolveType. -/
def candidateName (e : ToolEntry) : String :=
  e.explicitName.getD (slugify e.resolveType)

/-- Processing of one entry by `getTools`: run the collision loop starting
at the candidate name with `idx = 1`, then `toolNames.set(toolName,
resolveType)`. -/
def deriveStep (m : NameMap) (e : ToolEntry) : String × NameMap :=
  let n := clashLoop m e.resolveType (candidateName e) 1
  (n, NameMap.set m n e.resolveType)

/-- The name-assignment part of `getTools`: process the entries in order,
threading the shared `toolNames` map, and return the assigned names together
with the final map. -/
def deriveNames (m : NameMap) : List ToolEntry → List String × NameMap
  | [] => ([], m)
  | e :: es =>
    let p := deriveStep m e
    let q := deriveNames p.2 es
    (p.1 :: q.1, q.2)

/-! ### Unfolding and basic lemmas for the collision loop -/

theorem clashLoop_stop {m : NameMap} {rt t : String} {idx : Nat}
    (h : ¬(NameMap.hasKey m t = true ∧ NameMap.get? m t ≠ some rt)) :
    clashLoop m rt t idx = t := by
  rw [clashLoop.eq_def, dif_neg h]

theorem clashLoop_go {m : NameMap} {rt t : String} {idx : Nat}
    (h : NameMap.hasKey m t = true ∧ NameMap.get? m t ≠ some rt) :
    clashLoop m rt t idx = clashLoop m rt (t ++ "-" ++ toString idx) (idx + 1) := by
  rw [clashLoop.eq_def, dif_pos h]

/-- The name the collision loop settles on is either absent from the map or
already owned by the entry's own `resolveType`. -/
theorem clashLoop_post (m : NameMap) (rt t : String) (idx : Nat) :
    NameMap.get? m (clashLoop m rt t idx) = none ∨
    NameMap.get? m (clashLoop m rt t idx) = some rt := by
  induction t, idx using clashLoop.induct m rt with
  | case1 t idx h ih =>
    rw [clashLoop_go h]
    exact ih
  | case2 t idx h =>
    rw [clashLoop_stop h]
    push_neg at h
    by_cases hk : NameMap.hasKey m t = true
    · right
      exact h hk
    · left
      simpa [NameMap.hasKey, Option.isSome_iff_exists] using
        Option.not_isSome_iff_eq_none.mp (by simpa [NameMap.hasKey] using hk)

/-- `m` is preserved in `M`: every binding of `m` is still present, with the
same value, in `M`.  The tool registry's map only ever gains bindings and
never changes the owner of an existing name. -/
def Preserves (m M : NameMap) : Prop :=
  ∀ k v, NameMap.get? m k = some v → NameMap.get? M k = some v

theorem Preserves.refl (m : NameMap) : Preserves m m := fun _ _ h => h

theorem Preserves.trans {a b c : NameMap} (h1 : Preserves a b) (h2 : Preserves b c) :
    Preserves a c := fun k v h => h2 k v (h1 k v h)

theorem NameMap.get?_set_eq (m : NameMap) (k v : String) :
    NameMap.get? (NameMap.set m k v) k = some v := by
  induction m with
  | nil => simp [NameMap.set, NameMap.get?]
  | cons kv rest ih =>
    obtain ⟨k', v'⟩ := kv
    by_cases hk : (k' == k) = true
    · simp [NameMap.set, NameMap.get?, hk]
    · simp [NameMap.set, NameMap.get?, hk, ih]

theorem NameMap.get?_set_ne (m : NameMap) (k v k' : String) (h : k' ≠ k) :
    NameMap.get? (NameMap.set m k v) k' = NameMap.get? m k' := by
  induction m with
  | nil =>
    simp only [NameMap.set, NameMap.get?]
    simp [beq_iff_eq, Ne.symm h]
  | cons kv rest ih =>
    obtain ⟨k0, v0⟩ := kv
    by_cases hk : (k0 == k) = true
    · have : k0 = k := by simpa using hk
      subst this
      simp [NameMap.set, NameMap.get?, beq_iff_eq, Ne.symm h]
    · by_cases hk' : (k0 == k') = true
      · simp [NameMap.set, NameMap.get?, hk, hk']
      · simp [NameMap.set, NameMap.get?, hk, hk', ih]

/-- Setting a name to a value consistent with the map (absent, or already
owned by that value) preserves every existing binding. -/
theorem set_preserves {m : NameMap} {k v : String}
    (h : NameMap.get? m k = none ∨ NameMap.get? m k = some v) :
    Preserves m (NameMap.set m k v) := by
  intro k' v' hk'
  by_cases he : k' = k
  · subst he
    rcases h with h | h
    · rw [hk'] at h; cases h
    · rw [hk'] at h
      rw [NameMap.get?_set_eq]
      exact h.symm
  · rw [NameMap.get?_set_ne m k v k' he]
    exact hk'

/-- Setting a key to the value it already has leaves the map unchanged. -/
theorem NameMap.set_self {m : NameMap} {k v : String}
    (h : NameMap.get? m k = some v) : NameMap.set m k v = m := by
  induction m with
  | nil => simp [NameMap.get?] at h
  | cons kv rest ih =>
    obtain ⟨k0, v0⟩ := kv
    by_cases hk : (k0 == k) = true
    · have : k0 = k := by simpa using hk
      subst this
      simp only [NameMap.get?, beq_self_eq_true, if_pos] at h
      injection h with h
      simp [NameMap.set, h]
    · simp only [NameMap.get?, hk, Bool.false_eq_true, if_false] at h
      simp [NameMap.set, hk, ih h]

theorem deriveStep_preserves (m : NameMap) (e : ToolEntry) :
    Preserves m (deriveStep m e).2 :=
  set_preserves (clashLoop_post m e.resolveType (candidateName e) 1)

theorem deriveNames_preserves (m : NameMap) (es : List ToolEntry) :
    Preserves m (deriveNames m es).2 := by
  induction es generalizing m with
  | nil => exact Preserves.refl m
  | cons e es ih =>
    exact (deriveStep_preserves m e).trans (ih (deriveStep m e).2)

/-- If every binding of `m` persists into `M` and the name the loop settled
on over `m` is owned, in `M`, by the entry's own `resolveType`, then the
loop over `M` settles on the same name. -/
theorem clashLoop_stable {m M : NameMap} {rt : String} (hp : Preserves m M) :
    ∀ t idx, NameMap.get? M (clashLoop m rt t idx) = some rt →
    clashLoop M rt t idx = clashLoop m rt t idx := by
  intro t idx
  induction t, idx using clashLoop.induct m rt with
  | case1 t idx h ih =>
    intro hM
    rw [clashLoop_go h] at hM ⊢
    have hMcond : NameMap.hasKey M t = true ∧ NameMap.get? M t ≠ some rt := by
      obtain ⟨hhas, hne⟩ := h
      obtain ⟨v, hv⟩ := Option.isSome_iff_exists.mp hhas
      have hv' := hp t v hv
      constructor
      · simp [NameMap.hasKey, hv']
      · rw [hv']
        rw [hv] at hne
        exact hne
    rw [clashLoop_go hMcond]
    exact ih hM
  | case2 t idx h =>
    intro hM
    rw [clashLoop_stop h] at hM ⊢
    have : ¬(NameMap.hasKey M t = true ∧ NameMap.get? M t ≠ some rt) := by
      intro ⟨_, hne⟩
      exact hne hM
    rw [clashLoop_stop this]

/-- Re-running the derivation on its own final map re-assigns every entry
its previous name and leaves the map unchanged. -/
theorem deriveNames_stable (es : List ToolEntry) (m : NameMap) :
    deriveNames (deriveNames m es).2 es = ((deriveNames m es).1, (deriveNames m es).2) := by
  induction es generalizing m with
  | nil => simp [deriveNames]
  | cons e es ih =>
    have hpost := clashLoop_post m e.resolveType (candidateName e) 1
    set n := clashLoop m e.resolveType (candidateName e) 1 with hn
    have hstep : deriveStep m e = (n, NameMap.set m n e.resolveType) := rfl
    have hm1 : NameMap.get? (NameMap.set m n e.resolveType) n = some e.resolveType :=
      NameMap.get?_set_eq m n e.resolveType
    have hpresM : Preserves (NameMap.set m n e.resolveType)
        (deriveNames (NameMap.set m n e.resolveType) es).2 :=
      deriveNames_preserves _ es
    have hMn : NameMap.get? (deriveNames (NameMap.set m n e.resolveType) es).2 n
        = some e.resolveType := hpresM n e.resolveType hm1
    have hpres : Preserves m (deriveNames (NameMap.set m n e.resolveType) es).2 :=
      (set_preserves hpost).trans hpresM
    have hloop : clashLoop (deriveNames (NameMap.set m n e.resolveType) es).2
        e.resolveType (candidateName e) 1 = n :=
      clashLoop_stable hpres (candidateName e) 1 (by rw [← hn]; exact hMn)
    have hsetM : NameMap.set (deriveNames (NameMap.set m n e.resolveType) es).2
        n e.resolveType = (deriveNames (NameMap.set m n e.resolveType) es).2 :=
      NameMap.set_self hMn
    simp only [deriveNames, hstep]
    simp only [deriveStep, hloop, hsetM]
    rw [ih (NameMap.set m n e.resolveType)]

/-! ### The cumulative suffix chain produced by colliding candidates -/

/-- The sequence of names the collision loop actually walks for a fixed
base candidate: `base`, `base-1`, `base-1-2`, `base-1-2-3`, ...  Each new
name is the *previous* name with the next index appended, because the loop
mutates `toolName` in place. -/
def chainName (base : String) : Nat → String
  | 0 => base
  | k + 1 => chainName base k ++ "-" ++ toString (k + 1)

/-- The map produced by registering, starting at chain position `k`, the
given resolveTypes under consecutive chain names. -/
def chainMap (base : String) : Nat → List String → NameMap
  | _, [] => []
  | k, rt :: rts => (chainName base k, rt) :: chainMap base (k + 1) rts

theorem chainName_length_lt_succ (base : String) (k : Nat) :
    (chainName base k).length < (chainName base (k + 1)).length := by
  have hdash : ("-" : String).length = 1 := rfl
  simp only [chainName, String.length_append]
  omega

theorem chainName_length_strictMono (base : String) :
    StrictMono (fun k => (chainName base k).length) :=
  strictMono_nat_of_lt_succ (chainName_length_lt_succ base)

theorem chainName_ne (base : String) {i j : Nat} (h : i ≠ j) :
    chainName base i ≠ chainName base j := by
  intro he
  rcases Nat.lt_or_ge i j with hij | hij
  · have hlen : (chainName base i).length < (chainName base j).length :=
      chainName_length_strictMono base hij
    rw [he] at hlen
    exact lt_irrefl _ hlen
  · have hij' : j < i := lt_of_le_of_ne hij (Ne.symm h)
    have hlen : (chainName base j).length < (chainName base i).length :=
      chainName_length_strictMono base hij'
    rw [he] at hlen
    exact lt_irrefl _ hlen

theorem get?_chainMap (base : String) (rts : List String) (k j : Nat) :
    NameMap.get? (chainMap base k rts) (chainName base (k + j)) = rts.get? j := by
  induction rts generalizing k j with
  | nil => simp [chainMap, NameMap.get?]
  | cons rt rts ih =>
    cases j with
    | zero =>
      simp [chainMap, NameMap.get?]
    | succ j =>
      have hne : chainName base k ≠ chainName base (k + (j + 1)) :=
        chainName_ne base (by omega)
      have harith : k + (j + 1) = (k + 1) + j := by omega
      simp only [chainMap, NameMap.get?, beq_iff_eq, if_neg hne, List.get?]
      rw [harith]
      exact ih (k + 1) j

theorem set_chainMap (base : String) (rts : List String) (k : Nat) (v : String) :
    NameMap.set (chainMap base k rts) (chainName base (k + rts.length)) v
      = chainMap base k (rts ++ [v]) := by
  induction rts generalizing k with
  | nil => simp [chainMap, NameMap.set]
  | cons rt rts ih =>
    have hne : chainName base k ≠ chainName base (k + (rt :: rts).length) :=
      chainName_ne base (by simp)
    simp only [chainMap, NameMap.set, beq_iff_eq, if_neg hne, List.cons_append]
    have harith : k + (rt :: rts).length = (k + 1) + rts.length := by
      simp [List.length_cons]; omega
    rw [harith, ih (k + 1)]
    rfl

/-- Walking the collision loop from chain position `j`: as long as every
chain name up to `j + d` is owned by a foreign resolveType and the name at
`j + d` is free, the loop settles on the name at `j + d`. -/
theorem clashLoop_chain (base rt : String) :
    ∀ (d j : Nat) (m : NameMap),
    (∀ i, j ≤ i → i < j + d →
      ∃ v, NameMap.get? m (chainName base i) = some v ∧ v ≠ rt) →
    NameMap.get? m (chainName base (j + d)) = none →
    clashLoop m rt (chainName base j) (j + 1) = chainName base (j + d) := by
  intro d
  induction d with
  | zero =>
    intro j m _ hfree
    rw [Nat.add_zero] at hfree ⊢
    have : ¬(NameMap.hasKey m (chainName base j) = true ∧
        NameMap.get? m (chainName base j) ≠ some rt) := by
      intro ⟨hhas, _⟩
      rw [NameMap.hasKey] at hhas
      rw [hfree] at hhas
      simp at hhas
    rw [clashLoop_stop this]
    simp
  | succ d ih =>
    intro j m howned hfree
    obtain ⟨v, hv, hvne⟩ := howned j (le_refl j) (by omega)
    have hcond : NameMap.hasKey m (chainName base j) = true ∧
        NameMap.get? m (chainName base j) ≠ some rt := by
      refine ⟨by simp [NameMap.hasKey, hv], ?_⟩
      rw [hv]
      intro hc
      injection hc with hc
      exact hvne hc
    rw [clashLoop_go hcond]
    have hstep : chainName base j ++ "-" ++ toString (j + 1) = chainName base (j + 1) := rfl
    rw [hstep]
    have := ih (j + 1) m
      (fun i hi1 hi2 => howned i (by omega) (by omega))
      (by rw [show (j + 1) + d = j + (d + 1) by omega]; exact hfree)
    rw [this]
    congr 1
    omega

/-- The full derivation over entries that all share one candidate `base`
and have pairwise-distinct resolveTypes, starting from a map that already
holds `done` earlier registrations of the same chain: each entry receives
the next cumulative chain name and is appended to the chain map. -/
theorem deriveNames_chainMap (base : String) :
    ∀ (es : List ToolEntry) (done : List String),
    (∀ e ∈ es, candidateName e = base) →
    (∀ e ∈ es, e.resolveType ∉ done) →
    (es.map ToolEntry.resolveType).Nodup →
    deriveNames (chainMap base 0 done) es
      = ((List.range es.length).map (fun i => chainName base (done.length + i)),
         chainMap base 0 (done ++ es.map ToolEntry.resolveType)) := by
  intro es
  induction es with
  | nil =>
    intro done _ _ _
    simp [deriveNames]
  | cons e es ih =>
    intro done hcand hdone hnodup
    have hce : candidateName e = base := hcand e (by simp)
    have howned : ∀ i, 0 ≤ i → i < 0 + done.length →
        ∃ v, NameMap.get? (chainMap base 0 done) (chainName base i) = some v ∧
          v ≠ e.resolveType := by
      intro i _ hi
      have hi' : i < done.length := by omega
      have hmap := get?_chainMap base done 0 i
      rw [show (0 : Nat) + i = i by omega] at hmap
      have hv : done.get? i = some (done.get ⟨i, hi'⟩) := List.get?_eq_get hi'
      refine ⟨done.get ⟨i, hi'⟩, by rw [hmap, hv], ?_⟩
      intro hveq
      refine hdone e (by simp) ?_
      rw [← hveq]
      exact List.get_mem done i hi'
    have hfree : NameMap.get? (chainMap base 0 done) (chainName base (0 + done.length))
        = none := by
      rw [get?_chainMap base done 0 done.length]
      exact List.get?_eq_none.mpr (le_refl _)
    have hloop : clashLoop (chainMap base 0 done) e.resolveType (candidateName e) 1
        = chainName base done.length := by
      rw [hce]
      have := clashLoop_chain base e.resolveType done.length 0 (chainMap base 0 done)
        howned hfree
      rw [show chainName base 0 = base from rfl] at this
      rw [show (0 : Nat) + 1 = 1 by omega] at this
      rw [this]
      congr 1
      omega
    have hset : NameMap.set (chainMap base 0 done) (chainName base done.length)
        e.resolveType = chainMap base 0 (done ++ [e.resolveType]) := by
      have := set_chainMap base done 0 e.resolveType
      rw [show (0 : Nat) + done.length = done.length by omega] at this
      exact this
    have hnodup' : (es.map ToolEntry.resolveType).Nodup := by
      simp only [List.map_cons, List.nodup_cons] at hnodup
      exact hnodup.2
    have hhead : e.resolveType ∉ es.map ToolEntry.resolveType := by
      simp only [List.map_cons, List.nodup_cons] at hnodup
      exact hnodup.1
    have ihres := ih (done ++ [e.resolveType])
      (fun e' he' => hcand e' (by simp [he']))
      (by
        intro e' he' hmem
        rcases List.mem_append.mp hmem with hmem | hmem
        · exact hdone e' (by simp [he']) hmem
        · simp only [List.mem_singleton] at hmem
          exact hhead (hmem ▸ List.mem_map_of_mem ToolEntry.resolveType he'))
      hnodup'
    simp only [deriveNames, deriveStep, hloop, hset]
    rw [ihres]
    simp only [Prod.mk.injEq]
    constructor
    · simp only [List.length_cons, List.range_succ_eq_map, List.map_cons, List.map_map,
        List.cons.injEq]
      constructor
      · simp
      · apply List.map_congr_left
        intro i _
        simp only [Function.comp_apply, List.length_append, List.length_singleton]
        congr 1
        omega
    · simp [List.append_assoc]

/-! ### Claim C5: what `slugify` computes -/

/-- Claim C5 (corrected), counterexample: the spec says the candidate name
is computed by *lowercasing*, replacing `.` and `/` with `-`, and stripping
characters outside `[A-Za-z0-9_-]`.  The source `slugify` never lowercases:
on `"Site.Loader"` it yields `"Site-Loader"`, while the spec's recipe
yields `"site-loader"`. -/
theorem C5_counterexample :
    slugify "Site.Loader" = "Site-Loader" ∧
    slugifySpecClaimed "Site.Loader" = "site-loader" ∧
    slugify "Site.Loader" ≠ slugifySpecClaimed "Site.Loader" := by
  refine ⟨by decide, by decide, by decide⟩

/-- Claim C5 (amended): for every identifier string, the slugified
candidate is computed by replacing every `.` and `/` with `-` and stripping
every character outside `[A-Za-z0-9_-]` — with *no* lowercasing.  Stated by
proving `slugify` equal to an independent single-pass recursion implementing
exactly that description. -/
theorem C5_slugify_amended (name : String) :
    slugify name = ⟨slugAmendedSpec name.data⟩ := by
  rw [slugify, slugifyChars_eq_spec]

/-! ### Claim C2: collision suffixes -/

/-- Claim C2 (corrected), counterexample: three distinct resolveTypes
(`"a.b"`, `"a/b"`, `"a.b!"`) all slugify to the candidate `"a-b"`.  The
claim says the third-registered receives `"a-b-2"`; the source's loop
appends to the *current* candidate, so the third receives `"a-b-1-2"`. -/
theorem C2_counterexample :
    slugify "a.b" = "a-b" ∧ slugify "a/b" = "a-b" ∧ slugify "a.b!" = "a-b" ∧
    ("a.b" : String) ≠ "a/b" ∧ ("a/b" : String) ≠ "a.b!" ∧ ("a.b" : String) ≠ "a.b!" ∧
    (deriveNames [] [⟨"a.b", none⟩, ⟨"a/b", none⟩, ⟨"a.b!", none⟩]).1
      = ["a-b", "a-b-1", "a-b-1-2"] ∧
    ("a-b-1-2" : String) ≠ "a-b-2" := by
  have h1 : clashLoop [] "a.b" (candidateName ⟨"a.b", none⟩) 1 = "a-b" := by
    rw [clashLoop_stop (by decide)]; decide
  have h2 : clashLoop [("a-b", "a.b")] "a/b" (candidateName ⟨"a/b", none⟩) 1
      = "a-b-1" := by
    rw [clashLoop_go (by decide), clashLoop_stop (by decide)]; decide
  have h3 : clashLoop [("a-b", "a.b"), ("a-b-1", "a/b")] "a.b!"
      (candidateName ⟨"a.b!", none⟩) 1 = "a-b-1-2" := by
    rw [clashLoop_go (by decide), clashLoop_go (by decide),
      clashLoop_stop (by decide)]; decide
  refine ⟨by decide, by decide, by decide, by decide, by decide, by decide, ?_, by decide⟩
  simp [deriveNames, deriveStep, NameMap.set, h1, h2, h3]

/-- Claim C2 (amended): when entries with pairwise-distinct resolveTypes
all produce the same slugified candidate `base`, the first-registered gets
the bare `base`, the second `base-1`, and each subsequent collider gets the
*previous* colliding name with the next index appended (`base-1-2`,
`base-1-2-3`, ...): the `k`-th entry (0-based) gets `chainName base k`.
Re-deriving with the same inputs over the resulting map preserves every
previously assigned name. -/
theorem C2_collision_suffixes_amended (base : String) (es : List ToolEntry)
    (hcand : ∀ e ∈ es, candidateName e = base)
    (hnodup : (es.map ToolEntry.resolveType).Nodup) :
    (deriveNames [] es).1 = (List.range es.length).map (chainName base) ∧
    (deriveNames (deriveNames [] es).2 es).1 = (deriveNames [] es).1 := by
  have hmain := deriveNames_chainMap base es [] hcand (by simp) hnodup
  rw [show chainMap base 0 [] = [] from rfl] at hmain
  constructor
  · rw [hmain]
    simp
  · rw [deriveNames_stable es []]

/-- Witness for C2's amended theorem at a concrete input: two entries whose
resolveTypes `"a.x"` and `"a/x"` both slugify to `"a-x"`. -/
theorem C2_witness :
    (deriveNames [] [⟨"a.x", none⟩, ⟨"a/x", none⟩]).1
      = (List.range 2).map (chainName "a-x") ∧
    (deriveNames (deriveNames [] [⟨"a.x", none⟩, ⟨"a/x", none⟩]).2
        [⟨"a.x", none⟩, ⟨"a/x", none⟩]).1
      = (deriveNames [] [⟨"a.x", none⟩, ⟨"a/x", none⟩]).1 := by
  have := C2_collision_suffixes_amended "a-x" [⟨"a.x", none⟩, ⟨"a/x", none⟩]
    (by decide) (by decide)
  simpa using this

/-! ### Claim C3: derivation is idempotent within one registry lifetime -/

/-- Claim C3 (confirmed): with the shared `toolNames` map persisting between
calls and an unchanged schema source (hence the same entry list), a second
run of the name derivation assigns exactly the same names — a repeated entry
with the same resolveType reuses its previously assigned name instead of
receiving a new suffix.  Stated for every starting map and entry list. -/
theorem C3_derivation_idempotent (m : NameMap) (entries : List ToolEntry) :
    (deriveNames (deriveNames m entries).2 entries).1 = (deriveNames m entries).1 := by
  rw [deriveNames_stable entries m]

/-! ## Middleware composition (src/mcp/middleware.ts, `compose`)

A middleware is `(request, next) => Promise<response>`.  `none` models a
rejected promise.  When `dispatch` walks past the end of the list it calls
`last(request)` with no `next` argument, so the `next` seen by `last` there
is JS `undefined` and invoking it throws: that continuation is modelled by
`fun _ => none`. -/

/-- `RequestMiddleware<TRequest, TResponse>`. -/
def Middleware (α β : Type) : Type :=
  α → (Unit → Option β) → Option β

/-- The `dispatch(i)` recursion of `compose`, over the remaining suffix of
the middleware list: an existing element receives `() => dispatch(i + 1)`
as `next`; past the end, `last(request)` runs with an undefined `next`. -/
def dispatchList {α β : Type} (last : Middleware α β) (request : α) :
    List (Middleware α β) → Option β
  | [] => last request (fun _ => none)
  | mw :: rest => mw request (fun _ => dispatchList last request rest)

/-- Embedding of `compose` (src/mcp/middleware.ts lines 11-32):
`last = middlewares[middlewares.length - 1]`, and the composed resolver is
`dispatch(0)`.  Composing the empty list yields a resolver that crashes
(`last` is `undefined`). -/
def compose {α β : Type} (middlewares : List (Middleware α β)) : α → Option β :=
  fun request =>
    match middlewares.getLast? with
    | none => none
    | some last => dispatchList last request middlewares

/-- The pass-through interceptor `(req, next) => next()`. -/
def passThrough {α β : Type} : Middleware α β :=
  fun _ next => next ()

/-- A pass-through interceptor strictly inside the dispatch walk is skipped
without changing anything. -/
theorem dispatchList_passThrough {α β : Type} (last : Middleware α β) (request : α)
    (A B : List (Middleware α β)) :
    dispatchList last request (A ++ passThrough :: B) = dispatchList last request (A ++ B) := by
  induction A with
  | nil => rfl
  | cons mw A ih =>
    simp only [List.cons_append, dispatchList]
    congr 1
    funext u
    exact ih

/-- A middleware that recovers from a failed `next()` — in JS,
`async (req, next) => { try { return (await next()) + 1 } catch { return 0 } }`.
Used to distinguish who the fallback `last` is. -/
def recoverMw : Middleware Unit Nat :=
  fun _ next =>
    match next () with
    | some v => some (v + 1)
    | none => some 0

/-! ### Claim C9: pass-through insertion -/

/-- Claim C9 (corrected), counterexample: inserting the pass-through
`(req, next) => next()` at the *end* position of the one-element list
`[recoverMw]` changes the composed result.  In `compose [recoverMw]`, the
dispatch past the end applies `recoverMw` itself (the `last` fallback) to
the request, so the outer `next()` yields `0` and the composition returns
`1`.  After appending the pass-through, the pass-through becomes `last`;
the dispatch past the end now applies the pass-through with an undefined
`next`, which crashes, the outer `next()` is rejected, and the composition
returns `0`. -/
theorem C9_counterexample :
    compose [recoverMw] () = some 1 ∧
    compose [recoverMw, passThrough] () = some 0 ∧
    (some 1 : Option Nat) ≠ some 0 :=
  ⟨rfl, rfl, by decide⟩

/-- Claim C9 (amended): inserting a pass-through interceptor at any
position *other than the end* (so that it does not become the list's
`last` fallback) leaves the composed resolver's result unchanged on every
request; `compose` supplies a callable `next` even to the last listed
interceptor, and invoking `next` past the end of the list applies the
`last` element to the original request again (with an undefined `next` of
its own). -/
theorem C9_passThrough_amended {α β : Type} (A B : List (Middleware α β))
    (last : Middleware α β) (request : α) (hB : B ≠ []) :
    compose (A ++ passThrough :: B) request = compose (A ++ B) request ∧
    dispatchList last request [] = last request (fun _ => none) := by
  refine ⟨?_, rfl⟩
  have hgl : (A ++ passThrough :: B).getLast? = (A ++ B).getLast? := by
    rw [List.getLast?_append_of_ne_nil A (List.cons_ne_nil passThrough B),
      List.getLast?_append_of_ne_nil A hB]
    cases B with
    | nil => exact absurd rfl hB
    | cons b bs =>
      rw [show (passThrough :: b :: bs : List (Middleware α β))
          = [passThrough] ++ b :: bs from rfl,
        List.getLast?_append_of_ne_nil [passThrough] (List.cons_ne_nil b bs)]
  simp only [compose, hgl]
  cases hAB : (A ++ B).getLast? with
  | none => rfl
  | some l => exact dispatchList_passThrough l request A B

/-- Witness for C9's amended theorem at a concrete input: inserting the
pass-through before `recoverMw` changes nothing. -/
theorem C9_witness :
    compose ([] ++ passThrough :: [recoverMw]) () = compose ([] ++ [recoverMw]) () ∧
    dispatchList recoverMw () [] = recoverMw () (fun _ => none) :=
  C9_passThrough_amended [] [recoverMw] recoverMw () (List.cons_ne_nil recoverMw [])

/-! ## Filter patterns (src/unnamed/part_007, `matchesPattern` and
`mcpServerTools`) -/

/-- `pre` is a prefix of `s` (character lists). -/
def leadsWith : List Char → List Char → Bool
  | [], _ => true
  | _ :: _, [] => false
  | p :: ps, c :: cs => p == c && leadsWith ps cs

/-- JS `String.prototype.startsWith`. -/
def strStartsWith (s pre : String) : Bool :=
  leadsWith pre.data s.data

/-- JS `String.prototype.endsWith`. -/
def strEndsWith (s suf : String) : Bool :=
  leadsWith suf.data.reverse s.data.reverse

/-- The anchored regex built by the `matches` branch of `matchesPattern`
(`.` escaped to a literal, `*` turned into `.*`), as a glob matcher over
character lists.  (Patterns are assumed to contain no regex metacharacter
other than `.` and `*`, which the source leaves unescaped; the claims use
no `matches` pattern at all.) -/
def globMatch : List Char → List Char → Bool
  | [], [] => true
  | [], _ :: _ => false
  | '*' :: ps, [] => globMatch ps []
  | '*' :: ps, c :: cs => globMatch ps (c :: cs) || globMatch ('*' :: ps) cs
  | p :: ps, c :: cs => p == c && globMatch ps cs
  | _ :: _, [] => false
termination_by ps s => (ps.length, s.length)

/-- A filter pattern: either a literal string, or an object with optional
`startsWith` / `endsWith` / `matches` fields.  `none` models an absent
field; `some ""` models a field present with the empty string. -/
inductive FilterPattern where
  | lit (s : String)
  | cond (sw ew mg : Option String)
deriving DecidableEq

/-- JS truthiness of `pattern.field` guarded by `"field" in pattern`: the
field must be present and a non-empty string. -/
def truthyStr : Option String → Bool
  | some s => !(s == "")
  | none => false

/-- Embedding of `matchesPattern` (src/unnamed/part_007 lines 284-313):
a string pattern is an exact match; an object pattern checks `startsWith`,
then `endsWith`, then `matches`, each only when the field is present and
truthy; otherwise the pattern matches nothing. -/
def matchesPattern (toolName : String) : FilterPattern → Bool
  | .lit s => toolName == s
  | .cond sw ew mg =>
    if truthyStr sw then strStartsWith toolName (sw.getD "")
    else if truthyStr ew then strEndsWith toolName (ew.getD "")
    else if truthyStr mg then globMatch (mg.getD "").data toolName.data
    else false

/-- Embedding of the filtering tail of `mcpServerTools` (src/unnamed/part_007
lines 315-347): the record of tools is an ordered association list; when the
`include` list is non-empty keep only names matching some include pattern;
then, when the `exclude` list is non-empty, delete names matching some
exclude pattern. -/
def mcpServerToolsFilter {α : Type} (mtools : List (String × α))
    (fInclude fExclude : List FilterPattern) : List (String × α) :=
  let selected :=
    if 0 < fInclude.length then
      mtools.filter (fun kv => fInclude.any (fun p => matchesPattern kv.1 p))
    else mtools
  if 0 < fExclude.length then
    selected.filter (fun kv => !(fExclude.any (fun p => matchesPattern kv.1 p)))
  else selected

/-! ### Claim C6: include before exclude -/

/-- Claim C6 (confirmed): the include allow-list is applied before the
exclude deny-list, so any tool whose name matches some exclude pattern is
absent from the output no matter what the include list says; and the
include filter `[{startsWith: "drive_"}]` applied to
`["drive_list", "drive_upload", "resend_send"]` yields exactly
`["drive_list", "drive_upload"]`. -/
theorem C6_include_before_exclude :
    (∀ (α : Type) (mtools : List (String × α)) (fInclude fExclude : List FilterPattern)
      (n : String),
      fExclude.any (fun p => matchesPattern n p) = true →
      n ∉ (mcpServerToolsFilter mtools fInclude fExclude).map Prod.fst) ∧
    mcpServerToolsFilter
      [("drive_list", 0), ("drive_upload", 1), ("resend_send", 2)]
      [FilterPattern.cond (some "drive_") none none] []
      = [("drive_list", 0), ("drive_upload", 1)] := by
  constructor
  · intro α mtools fInclude fExclude n hexc hmem
    have hne : 0 < fExclude.length := by
      cases fExclude with
      | nil => simp at hexc
      | cons p ps => simp
    simp only [mcpServerToolsFilter, if_pos hne] at hmem
    obtain ⟨kv, hkv, hfst⟩ := List.mem_map.mp hmem
    have := (List.mem_filter.mp hkv).2
    rw [hfst] at this
    rw [hexc] at this
    simp at this
  · rfl

/-- Witness for the general part of C6 at a concrete input: the name
`"resend_send"` matches the exclude pattern `{endsWith: "_send"}` and is
absent from the filtered output. -/
theorem C6_witness :
    ("resend_send" : String) ∉
      (mcpServerToolsFilter [("drive_list", 0), ("resend_send", 2)] []
        [FilterPattern.cond none (some "_send") none]).map Prod.fst :=
  C6_include_before_exclude.1 Nat [("drive_list", 0), ("resend_send", 2)] []
    [FilterPattern.cond none (some "_send") none] "resend_send" (by decide)

/-! ### Claim C10: empty-string pattern fields match nothing -/

/-- Claim C10 (confirmed): a pattern object whose field value is the empty
string is falsy in JS, so `matchesPattern` falls through every branch and
returns `false` for every tool name — `{startsWith: ""}` (or
`{endsWith: ""}`) matches nothing, and used as an include list it selects
no tools rather than all tools. -/
theorem C10_empty_pattern_matches_nothing :
    (∀ name : String, matchesPattern name (FilterPattern.cond (some "") none none) = false) ∧
    (∀ name : String, matchesPattern name (FilterPattern.cond none (some "") none) = false) ∧
    (∀ (α : Type) (mtools : List (String × α)),
      mcpServerToolsFilter mtools [FilterPattern.cond (some "") none none] [] = []) := by
  refine ⟨fun name => rfl, fun name => rfl, ?_⟩
  intro α mtools
  simp only [mcpServerToolsFilter, List.length_cons, List.length_nil, Nat.lt_irrefl,
    if_false, Nat.zero_lt_succ, if_true, List.any_cons, List.any_nil]
  induction mtools with
  | nil => simp
  | cons kv rest ih =>
    simp [List.filter, matchesPattern, truthyStr, ih]

/-! ## Stateless HTTP transport (src/unnamed/part_009, `HttpServerTransport`)

Only the state read and written by `handlePost` (immediate-JSON tail),
`send` and `close` is modelled.  A message argument is represented by its
serialized JSON text, so `JSON.stringify(message)` is the identity on it.
The `onclose` observer is instrumented by a counter recording how many
times `this.onclose?.()` has run. -/

/-- Mutable fields of `HttpServerTransport` used by `send`/`close` and the
immediate-JSON wait: whether an SSE stream controller is installed, whether
the SSE stream is active, whether a `handlePost` promise resolver is
pending, the session id, and the number of `onclose` firings. -/
structure HttpTransportState where
  sseController : Bool
  sseStreamActive : Bool
  responseResolver : Bool
  sessionId : Option String
  oncloseCount : Nat
deriving DecidableEq

/-- An HTTP response as `send` builds it in immediate-JSON mode. -/
structure HttpResponse where
  body : String
  contentType : String
  sessionHeader : Option String
deriving DecidableEq

/-- What one `send` call does.  `thrown` represents a raised error — it is
part of the model only so the spec's "a second send is an error" can be
stated; the embedded `send` never produces it. -/
inductive SendEffect where
  | enqueued (eventName data : String)
  | resolved (response : HttpResponse)
  | noop
  | thrown (msg : String)
deriving DecidableEq

namespace HttpServerTransport

/-- Embedding of `HttpServerTransport.send` (src/unnamed/part_009 lines
176-197): if an SSE controller is installed, enqueue a `message` event;
else if a response resolver is pending, resolve it with the serialized
message, `Content-Type: application/json` and the session header, and
clear the resolver; otherwise do nothing and resolve successfully. -/
def send (st : HttpTransportState) (message : String) : SendEffect × HttpTransportState :=
  if st.sseController then
    (SendEffect.enqueued "message" message, st)
  else if st.responseResolver then
    (SendEffect.resolved ⟨message, "application/json", st.sessionId⟩,
      { st with responseResolver := false })
  else
    (SendEffect.noop, st)

/-- The immediate-JSON tail of `handlePost` (src/unnamed/part_009 lines
125-129): the request handler returns a promise that stays pending until
`send` resolves it; installing the resolver is the state change. -/
def awaitJsonResponse (st : HttpTransportState) : HttpTransportState :=
  { st with responseResolver := true }

/-- Embedding of `HttpServerTransport.close` (src/unnamed/part_009 lines
200-206): close the SSE controller if any, clear it, deactivate the
stream, and run `this.onclose?.()` — unconditionally, on every call. -/
def close (st : HttpTransportState) : HttpTransportState :=
  { st with
    sseController := false
    sseStreamActive := false
    oncloseCount := st.oncloseCount + 1 }

end HttpServerTransport

/-! ## WebSocket transport (src/unnamed/part_014, `WebSocketServerTransport`) -/

/-- Mutable fields of `WebSocketServerTransport` touched by `close`:
whether a socket is attached, the connected flag, and the number of
`onclose` firings. -/
structure WsTransportState where
  socket : Bool
  connected : Bool
  oncloseCount : Nat
deriving DecidableEq

namespace WebSocketServerTransport

/-- Embedding of `WebSocketServerTransport.close` (src/unnamed/part_014
lines 71-77): close the socket if any, drop it, clear the connected flag,
and run `this.onclose?.()` — unconditionally, on every call. -/
def close (st : WsTransportState) : WsTransportState :=
  { socket := false, connected := false, oncloseCount := st.oncloseCount + 1 }

end WebSocketServerTransport

/-! ### Claim C7: immediate-JSON response mode -/

/-- Claim C7 (corrected), counterexample: with the immediate-JSON wait
pending (and no SSE stream), the first `send` resolves the HTTP response
with the message as body and `Content-Type: application/json`; but a
*second* `send` after the response is committed is **not an error**: it
falls through both branches of `send` and returns a successfully resolved
promise with no effect at all (the `noop` outcome, with the state
unchanged), never the `thrown` outcome the claim would require. -/
theorem C7_counterexample :
    (HttpServerTransport.send
        (HttpServerTransport.awaitJsonResponse ⟨false, false, false, none, 0⟩) "reply1").1
      = SendEffect.resolved ⟨"reply1", "application/json", none⟩ ∧
    HttpServerTransport.send
        (HttpServerTransport.send
          (HttpServerTransport.awaitJsonResponse ⟨false, false, false, none, 0⟩) "reply1").2
        "reply2"
      = (SendEffect.noop,
         (HttpServerTransport.send
           (HttpServerTransport.awaitJsonResponse ⟨false, false, false, none, 0⟩) "reply1").2) ∧
    SendEffect.noop ≠ SendEffect.thrown "Error: response already committed" := by
  refine ⟨rfl, rfl, by decide⟩

/-- Claim C7 (amended): in immediate-JSON mode `handleMessage` blocks on a
pending resolver until `send` is called once; that `send` resolves the
response with the message as HTTP body and `Content-Type:
application/json` and clears the resolver; and any further `send` after
the response is committed is silently ignored (a no-op that resolves
successfully), not an error. -/
theorem C7_json_mode_amended (st : HttpTransportState) (message m2 : String)
    (hsse : st.sseController = false) (hres : st.responseResolver = true) :
    (HttpServerTransport.send st message).1
      = SendEffect.resolved ⟨message, "application/json", st.sessionId⟩ ∧
    (HttpServerTransport.send st message).2.responseResolver = false ∧
    HttpServerTransport.send (HttpServerTransport.send st message).2 m2
      = (SendEffect.noop, (HttpServerTransport.send st message).2) := by
  refine ⟨?_, ?_, ?_⟩ <;> simp [HttpServerTransport.send, hsse, hres]

/-- Witness for C7's amended theorem at a concrete pending state. -/
theorem C7_witness :
    (HttpServerTransport.send ⟨false, true, true, some "s1", 0⟩ "body").1
      = SendEffect.resolved ⟨"body", "application/json", some "s1"⟩ ∧
    (HttpServerTransport.send ⟨false, true, true, some "s1", 0⟩ "body").2.responseResolver
      = false ∧
    HttpServerTransport.send
        (HttpServerTransport.send ⟨false, true, true, some "s1", 0⟩ "body").2 "late"
      = (SendEffect.noop, (HttpServerTransport.send ⟨false, true, true, some "s1", 0⟩ "body").2) :=
  C7_json_mode_amended ⟨false, true, true, some "s1", 0⟩ "body" "late" rfl rfl

/-! ### Claim C8: close and the onclose callback -/

/-- Claim C8 (corrected), counterexample: closing a transport twice fires
the `onclose` callback twice, not "exactly once over the instance's
lifetime" — both `WebSocketServerTransport.close` and
`HttpServerTransport.close` run `this.onclose?.()` unconditionally on
every call. -/
theorem C8_counterexample :
    (WebSocketServerTransport.close (WebSocketServerTransport.close ⟨true, true, 0⟩)).oncloseCount
      = 2 ∧
    (HttpServerTransport.close (HttpServerTransport.close ⟨true, true, false, none, 0⟩)).oncloseCount
      = 2 ∧
    (2 : Nat) ≠ 1 := by
  refine ⟨rfl, rfl, by decide⟩

/-- Claim C8 (amended): `close()` is idempotent on the transport's
*resource* state — a second close leaves the socket/stream/session fields
exactly as the first left them — but the `onclose` callback fires once per
call, so `n` calls fire it `n` times rather than exactly once over the
instance's lifetime. -/
theorem C8_close_amended :
    (∀ st : WsTransportState,
      (WebSocketServerTransport.close (WebSocketServerTransport.close st)).socket
        = (WebSocketServerTransport.close st).socket ∧
      (WebSocketServerTransport.close (WebSocketServerTransport.close st)).connected
        = (WebSocketServerTransport.close st).connected ∧
      (WebSocketServerTransport.close st).oncloseCount = st.oncloseCount + 1) ∧
    (∀ st : HttpTransportState,
      (HttpServerTransport.close (HttpServerTransport.close st)).sseController
        = (HttpServerTransport.close st).sseController ∧
      (HttpServerTransport.close (HttpServerTransport.close st)).sseStreamActive
        = (HttpServerTransport.close st).sseStreamActive ∧
      (HttpServerTransport.close (HttpServerTransport.close st)).responseResolver
        = (HttpServerTransport.close st).responseResolver ∧
      (HttpServerTransport.close (HttpServerTransport.close st)).sessionId
        = (HttpServerTransport.close st).sessionId ∧
      (HttpServerTransport.close st).oncloseCount = st.oncloseCount + 1) := by
  refine ⟨fun st => ⟨rfl, rfl, rfl⟩, fun st => ⟨rfl, rfl, rfl, rfl, rfl⟩⟩

/-! ## The tools/call terminal step (`invokeTool`)

Two variants exist in the repository.  The part_011 variant (lines 254-301)
catches every failure and returns a structured `{isError: true}` result;
the src/mcp/server.ts variant (lines 229-260) logs and *rethrows* instead.
The external `deco.invoke` collaborator is a function parameter returning
`Except` (its `error` is a thrown exception); the `Bool` component of each
result records whether `invoke` was called. -/

/-- A CallTool result: `isError`, the text content (the JSON-serialized
invoke result), and the structured error `message`/`status` fields.  The
`stack` field of the source is not modelled. -/
structure CallToolResult where
  isError : Bool
  content : Option String
  message : Option String
  status : Option String
deriving DecidableEq

/-- Embedding of `invokeTool` from src/unnamed/part_011 lines 254-301:
resolve the requested name in the `toolNames` snapshot; when absent, the
thrown `Tool not found` error is caught by the function's own catch and
returned as `{isError: true, structuredContent: {message}}` without
calling `invoke`; when present, call `invoke` and wrap its result, or its
thrown error, into a structured result.  (Thrown `String` errors carry no
`status`, so `status` is `none` here.) -/
def invokeTool_part011 (toolNames : NameMap)
    (invoke : String → String → Except String String)
    (name args : String) : CallToolResult × Bool :=
  match NameMap.get? toolNames name with
  | none =>
    ({ isError := true, content := none,
       message := some ("Tool not found: " ++ name), status := none }, false)
  | some originalName =>
    match invoke originalName args with
    | Except.ok result =>
      ({ isError := false, content := some result, message := none, status := none }, true)
    | Except.error e =>
      ({ isError := true, content := none, message := some e, status := none }, true)

/-- Embedding of `invokeTool` from src/mcp/server.ts lines 229-260: same
name resolution, but the catch block logs and *rethrows*, so an unresolved
name (or a failing `invoke`) escapes as an exception (`Except.error`)
instead of a structured result. -/
def invokeTool_serverTs (toolNames : NameMap)
    (invoke : String → String → Except String String)
    (name args : String) : Except String CallToolResult × Bool :=
  match NameMap.get? toolNames name with
  | none => (Except.error ("Tool not found: " ++ name), false)
  | some originalName =>
    match invoke originalName args with
    | Except.ok result =>
      (Except.ok { isError := false, content := some result, message := none, status := none },
        true)
    | Except.error e => (Except.error e, true)

/-! ### Claim C4: tool-not-found handling -/

/-- Claim C4 (corrected), counterexample: in the src/mcp/server.ts
dispatcher (one of the two variants the claim covers), a `tools/call` whose
name is not in the snapshot does *not* return a structured `{isError:
true}` result — the terminal step rethrows the `Tool not found` error
(`Except.error`), though it indeed never calls `invoke` (the `false`). -/
theorem C4_counterexample :
    invokeTool_serverTs [("drive-list", "#DriveList")]
      (fun id _ => Except.ok ("ok " ++ id)) "missing" "{}"
      = (Except.error "Tool not found: missing", false) := rfl

/-- Claim C4 (amended): for every snapshot, resolver and arguments, a
`tools/call` whose name is absent from the snapshot never calls the
external `invoke`; the part_011 dispatcher returns the structured result
`{isError: true}` carrying a `Tool not found` message exactly as the claim
states, while the src/mcp/server.ts variant instead propagates the `Tool
not found` error as a thrown exception. -/
theorem C4_tool_not_found_amended (toolNames : NameMap)
    (invoke : String → String → Except String String) (name args : String)
    (h : NameMap.get? toolNames name = none) :
    invokeTool_part011 toolNames invoke name args
      = ({ isError := true, content := none,
           message := some ("Tool not found: " ++ name), status := none }, false) ∧
    invokeTool_serverTs toolNames invoke name args
      = (Except.error ("Tool not found: " ++ name), false) := by
  refine ⟨?_, ?_⟩ <;> simp [invokeTool_part011, invokeTool_serverTs, h]

/-- Witness for C4's amended theorem at a concrete input. -/
theorem C4_witness :
    invokeTool_part011 [("drive-list", "#DriveList")]
      (fun id _ => Except.ok ("ok " ++ id)) "absent" "{}"
      = ({ isError := true, content := none,
           message := some ("Tool not found: " ++ "absent"), status := none }, false) ∧
    invokeTool_serverTs [("drive-list", "#DriveList")]
      (fun id _ => Except.ok ("ok " ++ id)) "absent" "{}"
      = (Except.error ("Tool not found: " ++ "absent"), false) :=
  C4_tool_not_found_amended [("drive-list", "#DriveList")]
    (fun id _ => Except.ok ("ok " ++ id)) "absent" "{}" (by decide)

/-! ## JSON Schema dereferencing (src/unnamed/part_013, `dereferenceSchema`,
first variant, lines 4-158)

A JSON Schema object is modelled by the fields the dereferencer reads or
writes; every other key is irrelevant to its behaviour.  `typ` holds the
`type` key (a string, or an array of type strings); `ref` holds `$ref`;
`items` is a single schema or a tuple; `addProps` is `additionalProperties`
(a boolean or a schema).  An absent key is `none`; `delete result.x` sets
the field to `none`.  The JS `visited` set is mutated in place and shared
by *all* recursive calls, so the embedding threads it through every call:
each call returns the (ordered) list of reference keys it newly added. -/

/-- A JSON Schema object, restricted to the keys `dereferenceSchema`
inspects or produces. -/
inductive JSchema where
  | mk
    (typ : Option (String ⊕ List String))
    (ref : Option String)
    (title : Option String)
    (descr : Option String)
    (items : Option (JSchema ⊕ List JSchema))
    (allOf : Option (List JSchema))
    (anyOf : Option (List JSchema))
    (oneOf : Option (List JSchema))
    (properties : Option (List (String × JSchema)))
    (addProps : Option (Bool ⊕ JSchema))
    (required : Option (List String))

namespace JSchema

def typ : JSchema → Option (String ⊕ List String)
  | mk t _ _ _ _ _ _ _ _ _ _ => t

def ref : JSchema → Option String
  | mk _ r _ _ _ _ _ _ _ _ _ => r

def title : JSchema → Option String
  | mk _ _ ti _ _ _ _ _ _ _ _ => ti

def descr : JSchema → Option String
  | mk _ _ _ de _ _ _ _ _ _ _ => de

def items : JSchema → Option (JSchema ⊕ List JSchema)
  | mk _ _ _ _ it _ _ _ _ _ _ => it

def allOf : JSchema → Option (List JSchema)
  | mk _ _ _ _ _ ao _ _ _ _ _ => ao

def anyOf : JSchema → Option (List JSchema)
  | mk _ _ _ _ _ _ ay _ _ _ _ => ay

def oneOf : JSchema → Option (List JSchema)
  | mk _ _ _ _ _ _ _ oo _ _ _ => oo

def properties : JSchema → Option (List (String × JSchema))
  | mk _ _ _ _ _ _ _ _ pr _ _ => pr

def addProps : JSchema → Option (Bool ⊕ JSchema)
  | mk _ _ _ _ _ _ _ _ _ ap _ => ap

def required : JSchema → Option (List String)
  | mk _ _ _ _ _ _ _ _ _ _ rq => rq

end JSchema

/-- The empty object schema `{type: "object", properties: {}}` substituted
for a reference key seen again. -/
def emptyObjectSchema : JSchema :=
  JSchema.mk (some (Sum.inl "object")) none none none none none none none
    (some []) none none

/-- `({type: t})` built by the array-type branch. -/
def simpleTypeSchema (t : String) : JSchema :=
  JSchema.mk (some (Sum.inl t)) none none none none none none none none none none

/-- The definitions dictionary `{ [key: string]: JSONSchema7 }`. -/
abbrev SchemaDefs := List (String × JSchema)

/-- Object-key lookup in the definitions dictionary / a properties map. -/
def lookupDef (defs : List (String × JSchema)) (k : String) : Option JSchema :=
  match defs with
  | [] => none
  | (k', v) :: rest => if k' == k then some v else lookupDef rest k

/-- Index of the first occurrence of `pat` in `s`, as
`String.prototype.indexOf` finds it. -/
def findSubIdx (s pat : List Char) : Option Nat :=
  if leadsWith pat s then some 0
  else
    match s with
    | [] => none
    | _ :: rest => (findSubIdx rest pat).map (· + 1)

/-- JS `s.replace(pat, "")` for a plain-substring pattern: remove the first
occurrence of `pat`, if any. -/
def removeFirstSub (s pat : List Char) : List Char :=
  match findSubIdx s pat with
  | none => s
  | some i => s.take i ++ s.drop (i + pat.length)

/-- `idFromDefinition` of src/unnamed/part_013 lines 153-158:
`definition.replace("#/definitions/", "")`. -/
def idFromDefinition (definition : String) : String :=
  ⟨removeFirstSub definition.data "#/definitions/".data⟩

/-- JS object spread `{...a, ...b}` on schemas: a key present in `b` wins,
a key absent in `b` keeps `a`'s value. -/
def spreadMerge (a b : JSchema) : JSchema :=
  match a, b with
  | .mk t1 r1 ti1 d1 i1 al1 an1 o1 p1 ad1 rq1,
    .mk t2 r2 ti2 d2 i2 al2 an2 o2 p2 ad2 rq2 =>
    .mk (t2 <|> t1) (r2 <|> r1) (ti2 <|> ti1) (d2 <|> d1) (i2 <|> i1)
      (al2 <|> al1) (an2 <|> an1) (o2 <|> o1) (p2 <|> p1) (ad2 <|> ad1) (rq2 <|> rq1)

/-- Overwrite the `title` and `description` keys (the explicit entries of
the `$ref`-merge object literal, written after both spreads). -/
def withTitleDescr (s : JSchema) (ti de : Option String) : JSchema :=
  match s with
  | .mk t r _ _ i al an o p ad rq => .mk t r ti de i al an o p ad rq

/-- JS `a || b` on two optional strings (the empty string is falsy). -/
def strOr (a b : Option String) : Option String :=
  if truthyStr a then a else b

/-- JS object spread `{...(a as object), ...(b as object)}` on two
properties maps: `a`'s keys in order, values overridden by `b` where
present, then `b`'s new keys in `b`'s order. -/
def assocUnion (a b : List (String × JSchema)) : List (String × JSchema) :=
  a.map (fun kv => (kv.1, (lookupDef b kv.1).getD kv.2)) ++
    b.filter (fun kv => !(a.any (fun kv' => kv'.1 == kv.1)))

/-- The `allOf` merge loop of the first `dereferenceSchema` variant
(src/unnamed/part_013 lines 77-94): fold the dereferenced `allOf` members
into the result's `properties` and `required`. -/
def mergeAllOf (pr : Option (List (String × JSchema))) (rq : Option (List String)) :
    List JSchema → Option (List (String × JSchema)) × Option (List String)
  | [] => (pr, rq)
  | sub :: rest =>
    let pr1 := match sub.properties with
      | some ps => some (assocUnion (pr.getD []) ps)
      | none => pr
    let rq1 := match sub.required with
      | some rs => some ((rq.getD []) ++ rs)
      | none => rq
    mergeAllOf pr1 rq1 rest

/-- Embedding of the first `dereferenceSchema` variant (src/unnamed/part_013
lines 4-151), with an explicit call-stack budget: the JS engine's call
stack is finite, and `fuel` models the remaining recursion depth — every
recursive call spends one unit, and `none` at `0` is the engine's stack
exhaustion.  A `some (result, added)` is a normal return together with the
reference keys the call appended to the *shared* `visited` set (in order);
`none` is also a thrown `TypeError` (a `$ref` whose key is missing from
`definitions` forces `referencedSchema.title` to be read unless the local
title and description are both truthy and short-circuit `||`).

The body follows the source line by line: the array-`type` rewrite; the
`$ref` branch (empty-object substitution when the key is in the shared
visited set, else resolve, recurse and spread-merge, with `title` and
`description` overridden by `local || referenced`); then for plain schemas
the sequential, `visited`-threading walk over `items` (only when
`type === "array"`), `allOf` (dereference then merge members' `properties`
and `required` into the result and delete `allOf`; an empty array is kept),
`anyOf`, `oneOf`, `properties` (the *merged* map, so allOf-merged values
are dereferenced again, as in the source), and object-valued
`additionalProperties`. -/
def derefF (defs : SchemaDefs) : Nat → JSchema → List String → Option (JSchema × List String)
  | 0, _, _ => none
  | fuel + 1, .mk ty rf ti de it ao ay oo pr ap rq, visited =>
    let derefMany : List JSchema → List String → Option (List JSchema × List String) :=
      fun l v =>
        l.foldl
          (fun acc x =>
            match acc with
            | none => none
            | some (ds, s) =>
              match derefF defs fuel x (v ++ s) with
              | none => none
              | some (d, s') => some (ds ++ [d], s ++ s'))
          (some ([], []))
    let derefProps : List (String × JSchema) → List String →
        Option (List (String × JSchema) × List String) :=
      fun l v =>
        l.foldl
          (fun acc kv =>
            match acc with
            | none => none
            | some (ds, s) =>
              match derefF defs fuel kv.2 (v ++ s) with
              | none => none
              | some (d, s') => some (ds ++ [(kv.1, d)], s ++ s'))
          (some ([], []))
    match ty with
    | some (Sum.inr ts) =>
      some (.mk none rf ti de it ao (some (ts.map simpleTypeSchema)) oo pr ap rq, [])
    | _ =>
      match rf with
      | some r =>
        let refId := idFromDefinition r
        if visited.contains refId then
          some (emptyObjectSchema, [])
        else
          match lookupDef defs refId with
          | none =>
            if truthyStr ti && truthyStr de then
              some (.mk ty none ti de it ao ay oo pr ap rq, [refId])
            else none
          | some rs =>
            match derefF defs fuel rs (visited ++ [refId]) with
            | none => none
            | some (d, suf) =>
              some (withTitleDescr
                  (spreadMerge (.mk ty none ti de it ao ay oo pr ap rq) d)
                  (strOr ti rs.title) (strOr de rs.descr),
                refId :: suf)
      | none =>
        match
          (if ty = some (Sum.inl "array") then
            match it with
            | some (Sum.inl single) =>
              match derefF defs fuel single visited with
              | none => none
              | some (d, s) => some ((some (Sum.inl d) : Option (JSchema ⊕ List JSchema)), s)
            | some (Sum.inr tup) =>
              match derefMany tup visited with
              | none => none
              | some (ds, s) => some (some (Sum.inr ds), s)
            | none => some (it, [])
          else some (it, []))
        with
        | none => none
        | some (it1, s1) =>
          match
            (match ao with
             | some l =>
               if l.isEmpty then some (some l, pr, rq, ([] : List String))
               else
                 match derefMany l (visited ++ s1) with
                 | none => none
                 | some (ds, s2) =>
                   match mergeAllOf pr rq ds with
                   | (prm, rqm) => some (none, prm, rqm, s2)
             | none => some (none, pr, rq, []))
          with
          | none => none
          | some (ao1, pr1, rq1, s2) =>
            match
              (match ay with
               | some l =>
                 match derefMany l (visited ++ s1 ++ s2) with
                 | none => none
                 | some (ds, s3) => some ((some ds : Option (List JSchema)), s3)
               | none => some (none, []))
            with
            | none => none
            | some (ay1, s3) =>
              match
                (match oo with
                 | some l =>
                   match derefMany l (visited ++ s1 ++ s2 ++ s3) with
                   | none => none
                   | some (ds, s4) => some ((some ds : Option (List JSchema)), s4)
                 | none => some (none, []))
              with
              | none => none
              | some (oo1, s4) =>
                match
                  (match pr1 with
                   | some ps =>
                     match derefProps ps (visited ++ s1 ++ s2 ++ s3 ++ s4) with
                     | none => none
                     | some (ps1, s5) =>
                       some ((some ps1 : Option (List (String × JSchema))), s5)
                   | none => some (none, []))
                with
                | none => none
                | some (pr2, s5) =>
                  match
                    (match ap with
                     | some (Sum.inr sub) =>
                       match derefF defs fuel sub (visited ++ s1 ++ s2 ++ s3 ++ s4 ++ s5) with
                       | none => none
                       | some (d, s6) =>
                         some ((some (Sum.inr d) : Option (Bool ⊕ JSchema)), s6)
                     | _ => some (ap, []))
                  with
                  | none => none
                  | some (ap1, s6) =>
                    some (.mk ty none ti de it1 ao1 ay1 oo1 pr2 ap1 rq1,
                      s1 ++ s2 ++ s3 ++ s4 ++ s5 ++ s6)

/-- The `if (!schema) return undefined` entry line of `dereferenceSchema`:
an `undefined` schema argument is returned unchanged (no crash). -/
def dereferenceSchemaF (defs : SchemaDefs) (fuel : Nat) (schema : Option JSchema)
    (visited : List String) : Option (Option JSchema × List String) :=
  match schema with
  | none => some (none, [])
  | some s =>
    match derefF defs fuel s visited with
    | none => none
    | some (d, suf) => some (some d, suf)

/-- Does the `type` key hold an array (the first branch of the
dereferencer)? -/
def isArrayType : Option (String ⊕ List String) → Bool
  | some (Sum.inr _) => true
  | _ => false

/-! ### Claim C1: cycle handling in `dereferenceSchema` -/

/-- A cyclic definitions entry: `C = {title: "T", $ref: "#/definitions/C"}`. -/
def cycleDef : JSchema :=
  .mk none (some "#/definitions/C") (some "T") none none none none none none none none

/-- The definitions dictionary containing only the cyclic `C`. -/
def cycleDefs : SchemaDefs := [("C", cycleDef)]

/-- A bare reference to the cyclic node: `{$ref: "#/definitions/C"}`. -/
def cycleRefNode : JSchema :=
  .mk none (some "#/definitions/C") none none none none none none none none none

/-- The root schema `{properties: {a: {$ref: C}, b: {$ref: C}}}`: two
*identical* references to the same cyclic node along two disjoint paths. -/
def cycleRoot : JSchema :=
  .mk none none none none none none none none
    (some [("a", cycleRefNode), ("b", cycleRefNode)]) none none

/-- What dereferencing `{$ref: C}` with a fresh path produces: the cycle is
entered once (`C` joins the visited set), the inner self-reference is
substituted by the empty object schema, and the merge keeps the referenced
definition's title. -/
def cycleAVal : JSchema :=
  .mk (some (Sum.inl "object")) none (some "T") none none none none none (some []) none none

/-- Claim C1 (corrected), counterexample: dereferencing `cycleRoot` against
the cyclic graph `C -> C` terminates (a concrete budget of 10 suffices and
returns a value), but refutes the claimed substitution discipline.  The
properties `a` and `b` hold the *same* reference node `{$ref: C}` on two
disjoint paths, so under the claim's rule — substitution the second time
the key is visited *on the current path*, exactly once per cyclic node —
both would dereference identically.  Instead the `visited` set is shared
across the whole traversal: `a` resolves `C` once and substitutes the inner
self-reference (keeping `C`'s title `"T"`), while `b` is substituted by the
bare empty object schema at its *first* visit on its own path.  The cyclic
node `C` is thus substituted twice, and the two siblings differ. -/
theorem C1_counterexample :
    derefF cycleDefs 10 cycleRoot []
      = some (.mk none none none none none none none none
          (some [("a", cycleAVal), ("b", emptyObjectSchema)]) none none, ["C"]) ∧
    JSchema.title cycleAVal = some "T" ∧
    JSchema.title emptyObjectSchema = none ∧
    (some "T" : Option String) ≠ none := by
  refine ⟨rfl, rfl, rfl, by decide⟩

/-- Claim C1 (amended): the visited set is shared by the entire traversal,
not scoped to the current path.  Whenever dereferencing reaches a `$ref`
node (one whose `type` is not an array, so the reference branch runs) whose
key is already in the shared visited set, the node is replaced by the empty
object schema immediately — without any recursive call and without touching
the visited set, for every remaining call-stack budget — so reference
cycles never drive unbounded recursion.  Because the set is shared, this
substitution can strike the same cyclic node more than once, and can also
strike repeated non-cyclic references. -/
theorem C1_deref_visited_amended (defs : SchemaDefs) (fuel : Nat) (s : JSchema)
    (visited : List String) (r : String)
    (hty : isArrayType s.typ = false)
    (href : s.ref = some r)
    (hvis : visited.contains (idFromDefinition r) = true) :
    derefF defs (fuel + 1) s visited = some (emptyObjectSchema, []) := by
  obtain ⟨ty, rf, ti, de, it, ao, ay, oo, pr, ap, rq⟩ := s
  simp only [JSchema.ref] at href
  subst href
  simp only [JSchema.typ, isArrayType] at hty
  have hmem : idFromDefinition r ∈ visited := by
    simpa [List.contains, List.elem_eq_mem] using hvis
  match ty with
  | none => simp [derefF, hvis, hmem]
  | some (Sum.inl t) => simp [derefF, hvis, hmem]
  | some (Sum.inr ts) => simp at hty

/-- Witness for C1's amended theorem: a reference to `C` with `C` already
visited is substituted at once. -/
theorem C1_witness :
    derefF cycleDefs (3 + 1) cycleRefNode ["C"] = some (emptyObjectSchema, []) :=
  C1_deref_visited_amended cycleDefs 3 cycleRefNode ["C"] "#/definitions/C"
    (by decide) (by decide) (by decide)

end DecoMcp
